import Mathlib

/-! Verification model of the Duck version control engine (src/Duck.mjs).

The Duck class keeps its persistent state in three places under the
repository root: an object store (directory .duck/objects, one file per
object, keyed by hash), a HEAD file (contents of .duck/HEAD, possibly the
empty string), and a staging index file (.duck/index, a JSON array of
path/hash pairs).  We model that state as a record: the object store as an
association list from key to stored content (writing a key prepends, and a
read takes the first match, which gives filesystem overwrite semantics), the
HEAD file as an optional string (`none` means the file is absent, which
`fs.readFile` reports as an error), and the index file likewise as an
optional parsed entry list.

The SHA-1 function from the crypto library is modelled as an explicit
function parameter named `hashObject`, matching the method name in the
source; the source calls it on raw file contents and on JSON-serialized
commit records.  `JSON.stringify` on a commit record is modelled concretely
by `stringifyCommit`, which reproduces the exact byte output of
JSON.stringify on the object literal built in `Duck.commit` (fixed key
order timeStamp, message, files, parent, with standard JSON string
escaping).  Reads of stored commit records go through `JSON.parse`; on the
strings this program itself writes, JSON.parse is the inverse of
JSON.stringify, so a stored commit object is read back as its record.  A
stored blob is raw user file text; reading it as a commit record runs
JSON.parse on arbitrary text, modelled by `parseCommitString` below.  -/

namespace Duck

/-- One staging index entry, the object literal pushed by
`Duck.updateStagingArea`: the path passed to `add` and the hash of the file
contents at the time of staging. -/
structure StagingEntry where
  path : String
  hash : String
deriving DecidableEq

/-- A commit record, the `commitData` object literal built by `Duck.commit`:
timestamp string, commit message, the staged file list read from the index,
and the parent field, which holds whatever `getCurrentHead` returned (the
HEAD file contents, possibly the empty string, or null when the HEAD file
could not be read, modelled as `none`). -/
structure CommitData where
  timeStamp : String
  message : String
  files : List StagingEntry
  parent : Option String
deriving DecidableEq

/-- Contents of one file in the object store: either raw user file text
written by `Duck.add` (a blob) or the JSON serialization of a commit record
written by `Duck.commit`.  The store itself holds only byte strings; this
sum keeps the commit case in parsed form, justified because JSON.parse is
the inverse of JSON.stringify on the record strings the program writes
(`storedString` below recovers the exact stored bytes). -/
inductive Obj where
  | blob (content : String)
  | commitObj (data : CommitData)
deriving DecidableEq

/-- The persistent repository state: the object store association list
(most recent write first), the HEAD file contents (`none` when the file
does not exist), and the parsed index file contents (`none` when the file
does not exist). -/
structure DuckState where
  objects : List (String × Obj)
  head : Option String
  index : Option (List StagingEntry)
deriving DecidableEq

/-! Character constants used when building and reading JSON text, named so
that no brace or quote characters appear literally in the code. -/

/-- The double quote character. -/
def quoteC : Char := Char.ofNat 34

/-- The backslash character. -/
def backslashC : Char := Char.ofNat 92

/-- The digit zero character. -/
def zeroC : Char := Char.ofNat 48

/-- One hexadecimal digit in lowercase, as produced by JSON.stringify for
control character escapes. -/
def hexDigitChar (n : Nat) : Char :=
  if n < 10 then Char.ofNat (48 + n) else Char.ofNat (87 + n)

/-- Four lowercase hexadecimal digits. -/
def hex4 (n : Nat) : String :=
  String.mk [hexDigitChar (n / 4096 % 16), hexDigitChar (n / 256 % 16),
             hexDigitChar (n / 16 % 16), hexDigitChar (n % 16)]

/-- JSON string escaping of one character, exactly as JSON.stringify does
it: double quote and backslash get a backslash, the control characters
backspace, tab, newline, form feed and carriage return get their two letter
escapes, all other control characters below 32 get a lowercase u escape,
and every other character is emitted unchanged. -/
def jsonEscapeChar (c : Char) : String :=
  if c == quoteC then String.mk [backslashC, quoteC]
  else if c == backslashC then String.mk [backslashC, backslashC]
  else if c == Char.ofNat 8 then String.mk [backslashC, Char.ofNat 98]
  else if c == Char.ofNat 9 then String.mk [backslashC, Char.ofNat 116]
  else if c == Char.ofNat 10 then String.mk [backslashC, Char.ofNat 110]
  else if c == Char.ofNat 12 then String.mk [backslashC, Char.ofNat 102]
  else if c == Char.ofNat 13 then String.mk [backslashC, Char.ofNat 114]
  else if c.toNat < 32 then String.mk [backslashC, Char.ofNat 117] ++ hex4 c.toNat
  else String.singleton c

/-- JSON string escaping of a whole string. -/
def jsonEscape (s : String) : String :=
  String.join (s.data.map jsonEscapeChar)

/-- A JSON string literal: escaped text between double quotes. -/
def jsonStr (s : String) : String :=
  String.mk [quoteC] ++ jsonEscape s ++ String.mk [quoteC]

/-- JSON.stringify of one staging entry object, key order path then hash. -/
def stringifyEntry (e : StagingEntry) : String :=
  "\x7b" ++ jsonStr "path" ++ ":" ++ jsonStr e.path ++ "," ++
    jsonStr "hash" ++ ":" ++ jsonStr e.hash ++ "\x7d"

/-- JSON.stringify of the commit record built in `Duck.commit`, with the
fixed key order of the object literal in the source: timeStamp, message,
files, parent.  A null parent prints as the null literal, otherwise the
parent hash prints as a JSON string. -/
def stringifyCommit (c : CommitData) : String :=
  "\x7b" ++ jsonStr "timeStamp" ++ ":" ++ jsonStr c.timeStamp ++ "," ++
    jsonStr "message" ++ ":" ++ jsonStr c.message ++ "," ++
    jsonStr "files" ++ ":[" ++
    String.intercalate "," (c.files.map stringifyEntry) ++ "]," ++
    jsonStr "parent" ++ ":" ++
    (match c.parent with
      | none => "null"
      | some p => jsonStr p) ++ "\x7d"

/-- The exact byte string stored in the object store for a given object:
raw text for a blob, the JSON serialization for a commit record. -/
def storedString : Obj → String
  | .blob b => b
  | .commitObj c => stringifyCommit c

/-! A small concrete reader for JSON text, used to model what `JSON.parse`
does when the program reads a stored object back as a commit record and the
object is a blob of arbitrary user file text rather than a serialized
commit.  The reader recognizes the null literal, the JSON values that are
falsy in JavaScript, and strings with the exact shape `stringifyCommit`
produces.  All other inputs are reported as `invalid`: for text that is not
well formed JSON this is exactly the SyntaxError JSON.parse throws; for the
remaining corner (well formed JSON that is truthy but not a serialized
commit record, reachable only by passing the hash of such a user file where
a commit hash is expected) the real program fails later with a TypeError
when it dereferences missing fields, or in contrived cases prints stray
output, and the model folds those outcomes into the same failing result. -/

/-- How the result of reading a stored string as a commit record is
classified, following the JavaScript semantics of JSON.parse and of the
subsequent truthiness test in `showCommitDiff`. -/
inductive ParsedStored where
  | invalid
  | nullValue
  | falsyValue
  | record (c : CommitData)
deriving DecidableEq

/-- Numeric value of one hexadecimal digit character, if it is one. -/
def hexVal (c : Char) : Option Nat :=
  let n := c.toNat
  if 48 ≤ n && n ≤ 57 then some (n - 48)
  else if 97 ≤ n && n ≤ 102 then some (n - 87)
  else if 65 ≤ n && n ≤ 70 then some (n - 55)
  else none

/-- Inverse of the two letter JSON escapes. -/
def unescapeChar (c : Char) : Option Char :=
  if c == quoteC then some quoteC
  else if c == backslashC then some backslashC
  else if c == Char.ofNat 47 then some (Char.ofNat 47)
  else if c == Char.ofNat 98 then some (Char.ofNat 8)
  else if c == Char.ofNat 102 then some (Char.ofNat 12)
  else if c == Char.ofNat 110 then some (Char.ofNat 10)
  else if c == Char.ofNat 114 then some (Char.ofNat 13)
  else if c == Char.ofNat 116 then some (Char.ofNat 9)
  else none

/-- Consume an expected literal character sequence from the input. -/
def dropLit : List Char → List Char → Option (List Char)
  | [], l => some l
  | _ :: _, [] => none
  | c :: cs, x :: xs => if c == x then dropLit cs xs else none

/-- Read the body of a JSON string (the opening quote already consumed)
up to and past the closing quote, undoing escapes.  Fueled so that the
recursion is structurally obvious; fuel at least the input length plus one
always suffices. -/
def parseJsonStr : Nat → List Char → List Char → Option (String × List Char)
  | 0, _, _ => none
  | Nat.succ fuel, acc, l =>
    match l with
    | [] => none
    | c :: rest =>
      if c == quoteC then some (String.mk acc.reverse, rest)
      else if c == backslashC then
        match rest with
        | [] => none
        | e :: rest2 =>
          if e == Char.ofNat 117 then
            match rest2 with
            | a :: b :: c2 :: d :: rest3 =>
              match hexVal a, hexVal b, hexVal c2, hexVal d with
              | some ha, some hb, some hc, some hd =>
                parseJsonStr fuel
                  (Char.ofNat (((ha * 16 + hb) * 16 + hc) * 16 + hd) :: acc) rest3
              | _, _, _, _ => none
            | _ => none
          else
            match unescapeChar e with
            | some u => parseJsonStr fuel (u :: acc) rest2
            | none => none
      else if c.toNat < 32 then none
      else parseJsonStr fuel (c :: acc) rest

/-- Read one serialized staging entry object. -/
def parseEntry (fuel : Nat) (l : List Char) : Option (StagingEntry × List Char) := do
  let l1 ← dropLit ("\x7b\"path\":\"").data l
  let (p, l2) ← parseJsonStr fuel [] l1
  let l3 ← dropLit (",\"hash\":\"").data l2
  let (h, l4) ← parseJsonStr fuel [] l3
  let l5 ← dropLit ("\x7d").data l4
  some (⟨p, h⟩, l5)

/-- Read a serialized staging entry array body (the opening bracket already
consumed), up to and past the closing bracket. -/
def parseEntries : Nat → List Char → Option (List StagingEntry × List Char)
  | 0, _ => none
  | Nat.succ fuel, l =>
    match dropLit ("]").data l with
    | some rest => some ([], rest)
    | none => do
      let (e, l2) ← parseEntry fuel l
      match dropLit (",").data l2 with
      | some l3 => do
        let (es, l4) ← parseEntries fuel l3
        some (e :: es, l4)
      | none => do
        let l3 ← dropLit ("]").data l2
        some ([e], l3)

/-- Read a string with exactly the shape `stringifyCommit` produces, as a
commit record. -/
def parseCommitRecord (s : String) : Option CommitData := do
  let fuel := s.length + 1
  let l1 ← dropLit ("\x7b\"timeStamp\":\"").data s.data
  let (ts, l2) ← parseJsonStr fuel [] l1
  let l3 ← dropLit (",\"message\":\"").data l2
  let (msg, l4) ← parseJsonStr fuel [] l3
  let l5 ← dropLit (",\"files\":[").data l4
  let (files, l6) ← parseEntries fuel l5
  let l7 ← dropLit (",\"parent\":").data l6
  match dropLit ("null\x7d").data l7 with
  | some [] => some ⟨ts, msg, files, none⟩
  | some _ => none
  | none => do
    let l8 ← dropLit ("\"").data l7
    let (par, l9) ← parseJsonStr fuel [] l8
    let l10 ← dropLit ("\x7d").data l9
    if l10 = [] then some ⟨ts, msg, files, some par⟩ else none

/-- Whether a string is a JSON number literal with value zero (the falsy
numbers), in the simple forms minus sign, a zero digit, and an optional
fraction of zero digits; exponent forms are not recognized, which only
makes the model report a parse failure where the real program would reach
its later dynamic failure by another route. -/
def isJsonZero (s : String) : Bool :=
  let l := match s.data with
    | c :: rest => if c == Char.ofNat 45 then rest else c :: rest
    | [] => []
  match l with
  | [] => false
  | c :: rest =>
    c == zeroC &&
      (match rest with
        | [] => true
        | d :: ds => d == Char.ofNat 46 && !ds.isEmpty && ds.all (fun x => x == zeroC))

/-- Classify the result of JSON.parse on a stored string that the program
is about to use as a commit record. -/
def parseCommitString (s : String) : ParsedStored :=
  if s = "null" then .nullValue
  else if s = "false" || isJsonZero s || s = String.mk [quoteC, quoteC] then .falsyValue
  else
    match parseCommitRecord s with
    | some c => .record c
    | none => .invalid

/-- Classify the result of JSON.parse on a stored object: a stored commit
record parses back to itself (JSON.parse inverts JSON.stringify on the
strings this program writes), a blob goes through the concrete reader. -/
def parseStoredObj : Obj → ParsedStored
  | .commitObj c => .record c
  | .blob b => parseCommitString b

/-- Classify JSON.parse of the value `getCommitData` hands over: when the
object file was missing, getCommitData returned null, and JSON.parse(null)
in JavaScript coerces its argument to the string null and yields the null
value rather than throwing. -/
def parseStoredOpt : Option Obj → ParsedStored
  | none => .nullValue
  | some o => parseStoredObj o

/-! The operations of the Duck class.  Failures of filesystem reads and of
the JavaScript dynamic semantics are surfaced as values of `JsError`;
writes cannot fail in the model.  Each operation that can fail part way
returns the state reached by the writes it performed before failing,
together with its outcome, mirroring the lack of rollback in the source. -/

/-- The failure modes of the modelled operations: a rejected filesystem
read of a missing path, a SyntaxError from JSON.parse (also covering the
folded dynamic corner described at `parseCommitString`), a TypeError from
dereferencing or iterating a missing value, and fuel exhaustion of the
modelled log loop, which stands for non termination. -/
inductive JsError where
  | enoent
  | badJson
  | typeError
  | divergent
deriving DecidableEq

/-- Association list read with first match semantics, modelling a read of
the file named by the key in the objects directory. -/
def lookupA : List (String × Obj) → String → Option Obj
  | [], _ => none
  | (k, v) :: rest, k2 => if k = k2 then some v else lookupA rest k2

/-- Read one object from the object store. -/
def lookupObject (s : DuckState) (k : String) : Option Obj :=
  lookupA s.objects k

/-- Write one object into the object store (filesystem overwrite). -/
def putObject (s : DuckState) (k : String) (v : Obj) : DuckState :=
  { s with objects := (k, v) :: s.objects }

/-- `Duck.init`: create the objects directory, then try to create the HEAD
file with the exclusive flag and then the index file with the exclusive
flag, swallowing the failure when a file already exists.  Because both
writes sit in one try block, an existing HEAD file prevents the index write
from even being attempted. -/
def init (s : DuckState) : DuckState :=
  if s.head.isSome then s
  else
    match s.index with
    | some _ => { s with head := some "" }
    | none => { s with head := some "", index := some ([] : List StagingEntry) }

/-- `Duck.getCurrentHead`: the HEAD file contents, or null (`none`) when
the file cannot be read. -/
def getCurrentHead (s : DuckState) : Option String :=
  s.head

/-- `Duck.updateStagingArea`: read the index file, append the new entry,
write the index file back.  A missing index file makes the read throw. -/
def updateStagingArea (s : DuckState) (filePath fileHash : String) :
    DuckState × Except JsError Unit :=
  match s.index with
  | none => (s, .error .enoent)
  | some index =>
    ({ s with index := some (index ++ [⟨filePath, fileHash⟩]) }, .ok ())

/-- `Duck.add`: read the file to be added (the read outcome is supplied by
the caller, since the working tree lies outside the repository state),
hash its contents, store the blob under the hash, then append a staging
entry.  A failed read aborts before any write. -/
def add (hashObject : String → String) (s : DuckState) (fileToBeAdded : String)
    (readResult : Option String) : DuckState × Except JsError Unit :=
  match readResult with
  | none => (s, .error .enoent)
  | some fileData =>
    let fileHash := hashObject fileData
    let s1 := putObject s fileHash (.blob fileData)
    updateStagingArea s1 fileToBeAdded fileHash

/-- The hash of a commit record: `hashObject` applied to the JSON
serialization, exactly as `Duck.commit` computes it. -/
def hashCommit (hashObject : String → String) (c : CommitData) : String :=
  hashObject (stringifyCommit c)

/-- `Duck.commit`: read the index file, read HEAD, build the commit record
with the supplied wall clock timestamp, store its serialization under its
hash, point HEAD at the new hash, clear the index. -/
def commit (hashObject : String → String) (s : DuckState)
    (message timeStamp : String) : DuckState × Except JsError String :=
  match s.index with
  | none => (s, .error .enoent)
  | some index =>
    let parentCommit := getCurrentHead s
    let commitData : CommitData :=
      { timeStamp := timeStamp, message := message, files := index, parent := parentCommit }
    let commitHash := hashCommit hashObject commitData
    let s1 := putObject s commitHash (.commitObj commitData)
    let s2 := { s1 with head := some commitHash }
    let s3 := { s2 with index := some ([] : List StagingEntry) }
    (s3, .ok commitHash)

/-- `Duck.getCommitData`: read the object file for a hash, returning its
raw text, or null (`none`) when the read fails. -/
def getCommitData (s : DuckState) (commitHash : String) : Option String :=
  (lookupObject s commitHash).map storedString

/-- `Duck.getFileContent`: read the object file for a hash with no error
handling, so a missing object is a rejected read. -/
def getFileContent (s : DuckState) (fileHash : String) : Except JsError String :=
  match lookupObject s fileHash with
  | none => .error .enoent
  | some o => .ok (storedString o)

/-- JavaScript truthiness of the strings flowing through the log loop and
the parent test in `showCommitDiff`: null and the empty string are falsy,
every other string is truthy. -/
def jsTruthy : Option String → Bool
  | none => false
  | some str => decide (str ≠ "")

/-- What the log loop emits for one commit hash: the parsed record, or a
marker for the corner where the parsed value is a non null falsy value,
whose timestamp and message print as undefined before the walk stops. -/
inductive LogEntryData where
  | record (c : CommitData)
  | nonRecord
deriving DecidableEq

/-- The while loop of `Duck.log`: while the current hash is truthy, read
and parse its object (a missing object file rejects the read), print the
entry, and move to the parent field of the parsed record.  Fueled because
the source loop need not terminate on a cyclic store; any fuel larger than
the chain length gives the loop behavior. -/
def logLoop (s : DuckState) : Nat → Option String → Except JsError (List (String × LogEntryData))
  | 0, _ => .error .divergent
  | Nat.succ fuel, cur =>
    if jsTruthy cur then
      let h := cur.getD ""
      match lookupObject s h with
      | none => .error .enoent
      | some o =>
        match parseStoredObj o with
        | .record c =>
          match logLoop s fuel c.parent with
          | .ok rest => .ok ((h, .record c) :: rest)
          | .error e => .error e
        | .nullValue => .error .typeError
        | .falsyValue => .ok [(h, .nonRecord)]
        | .invalid => .error .badJson
    else .ok []

/-- `Duck.log`: walk from the current HEAD.  The returned list is the
sequence of printed entries, newest first. -/
def log (s : DuckState) (fuel : Nat) : Except JsError (List (String × LogEntryData)) :=
  logLoop s fuel (getCurrentHead s)

/-- One per file report printed by `showCommitDiff`: a file of a commit
without a parent (First commit), a file absent from the parent commit (New
file in this commit), or a file also present in the parent, carrying the
current text and the text found in the parent, from which the printed line
diff is rendered. -/
inductive FileReport where
  | firstCommit (path content : String)
  | newFile (path content : String)
  | modified (path content before : String)
deriving DecidableEq

/-- Whether a report is the First commit classification. -/
def FileReport.isFirst : FileReport → Bool
  | .firstCommit _ _ => true
  | _ => false

/-- The overall outcome printed by `showCommitDiff`: the Commit not found
message, or the header followed by one report per file. -/
inductive ShowResult where
  | notFound
  | changes (reports : List FileReport)
deriving DecidableEq

/-- `Duck.getParentFileContent`: find the first entry of the parent record
whose path matches, and fetch its blob; no match yields undefined
(`none`). -/
def getParentFileContent (s : DuckState) (parentCommitData : CommitData)
    (filePath : String) : Except JsError (Option String) :=
  match parentCommitData.files.find? (fun file => decide (file.path = filePath)) with
  | some parentFile =>
    match getFileContent s parentFile.hash with
    | .ok content => .ok (some content)
    | .error e => .error e
  | none => .ok none

/-- The per file loop of `Duck.showCommitDiff`: fetch the file content (a
missing blob rejects the read), then classify against the parent.  A truthy
parent hash is read and parsed with `getCommitData` plus JSON.parse: a
missing parent object yields null and the subsequent field access in
`getParentFileContent` throws a TypeError, as does a falsy non null parse;
unparseable text is the SyntaxError case. -/
def showFiles (s : DuckState) (parent : Option String) :
    List StagingEntry → Except JsError (List FileReport)
  | [] => .ok []
  | file :: rest =>
    match getFileContent s file.hash with
    | .error e => .error e
    | .ok fileContent =>
      let step : Except JsError FileReport :=
        if jsTruthy parent then
          match parseStoredOpt (lookupObject s (parent.getD "")) with
          | .record pc =>
            match getParentFileContent s pc file.path with
            | .ok (some before) => .ok (.modified file.path fileContent before)
            | .ok none => .ok (.newFile file.path fileContent)
            | .error e => .error e
          | .invalid => .error .badJson
          | .nullValue => .error .typeError
          | .falsyValue => .error .typeError
        else .ok (.firstCommit file.path fileContent)
      match step with
      | .error e => .error e
      | .ok report =>
        match showFiles s parent rest with
        | .ok others => .ok (report :: others)
        | .error e => .error e

/-- `Duck.showCommitDiff`: read and parse the commit object for the given
hash (a missing object yields null from `getCommitData`, hence the falsy
test prints Commit not found and returns), then walk the file list. -/
def showCommitDiff (s : DuckState) (commitHash : String) : Except JsError ShowResult :=
  match parseStoredOpt (lookupObject s commitHash) with
  | .invalid => .error .badJson
  | .nullValue => .ok .notFound
  | .falsyValue => .ok .notFound
  | .record c =>
    match showFiles s c.parent c.files with
    | .ok reports => .ok (.changes reports)
    | .error e => .error e

/-! Scenario definitions used to state the claims. -/

/-- A concrete collision free stand in for the SHA-1 hex digest, used to
instantiate the hash parameter in closed witnesses and counterexamples;
the identity function is injective, which is the property the digest is
trusted for. -/
def idHash (s : String) : String := s

/-- The state of a repository directory after running `init` in a fresh
directory: no objects, an empty HEAD file, an empty index file. -/
def freshInit : DuckState := init ⟨[], none, none⟩

/-- The state reached by a sequence of commits, each given as a message and
timestamp pair. -/
def commitList (hashObject : String → String) : DuckState → List (String × String) → DuckState
  | s, [] => s
  | s, (m, t) :: rest => commitList hashObject (commit hashObject s m t).1 rest

/-- The commit records and hashes a sequence of empty commits creates,
oldest first, starting from a given parent value. -/
def chainFrom (hashObject : String → String) :
    Option String → List (String × String) → List (String × CommitData)
  | _, [] => []
  | parent, (m, t) :: rest =>
    (hashCommit hashObject ⟨t, m, [], parent⟩, ⟨t, m, [], parent⟩) ::
      chainFrom hashObject (some (hashCommit hashObject ⟨t, m, [], parent⟩)) rest

/-- The HEAD value after a sequence of empty commits starting from a given
parent value. -/
def chainEnd (hashObject : String → String) :
    Option String → List (String × String) → Option String
  | p, [] => p
  | p, (m, t) :: rest =>
    chainEnd hashObject (some (hashCommit hashObject ⟨t, m, [], p⟩)) rest

/-- Parent linkage of an oldest first list of hash and record pairs: the
first record carries the given parent value, and each later record carries
the hash of the record before it. -/
def linksFrom : Option String → List (String × CommitData) → Bool
  | _, [] => true
  | p, (h, c) :: rest => decide (c.parent = p) && linksFrom (some h) rest

/-- The invariant the log walk relies on, for a newest first list of hash
and record pairs: the cursor names the first hash, every hash is truthy and
resolves in the store to its commit record, each parent field names the
next pair, and the parent field of the last pair equals the terminal
value. -/
def chainInvT (s : DuckState) (term : Option String) :
    Option String → List (String × CommitData) → Prop
  | cur, [] => cur = term
  | cur, (h, c) :: rest =>
    cur = some h ∧ h ≠ "" ∧ lookupObject s h = some (.commitObj c) ∧
      chainInvT s term c.parent rest

/-- The first commit record of the duplicate staging scenario: one path
staged twice with different contents, committed on a freshly initialized
repository. -/
def c4rec1 (hashObject : String → String) (p c1 c2 m1 t1 : String) : CommitData :=
  ⟨t1, m1, [⟨p, hashObject c1⟩, ⟨p, hashObject c2⟩], some ""⟩

/-- The second commit record of the duplicate staging scenario: the same
path staged once more and committed on top. -/
def c4rec2 (hashObject : String → String) (p c1 c2 c3 m1 t1 m2 t2 : String) : CommitData :=
  ⟨t2, m2, [⟨p, hashObject c3⟩],
    some (hashCommit hashObject (c4rec1 hashObject p c1 c2 m1 t1))⟩

/-- The repository state of the duplicate staging scenario: init, add the
path twice, commit, add the path again, commit. -/
def c4state (hashObject : String → String) (p c1 c2 c3 m1 t1 m2 t2 : String) : DuckState :=
  (commit hashObject
    (add hashObject
      (commit hashObject
        (add hashObject (add hashObject freshInit p (some c1)).1 p (some c2)).1
        m1 t1).1
      p (some c3)).1
    m2 t2).1

/-! Helper lemmas about the operations. -/

/-- A successful `add` stores the blob under the content hash and appends
one staging entry, leaving HEAD alone. -/
theorem add_spec (hashObject : String → String) (s : DuckState) (f content : String)
    (idx : List StagingEntry) (h : s.index = some idx) :
    add hashObject s f (some content) =
      (⟨(hashObject content, .blob content) :: s.objects, s.head,
        some (idx ++ [⟨f, hashObject content⟩])⟩, .ok ()) := by
  simp [add, putObject, updateStagingArea, h]

/-- A `commit` on a readable index stores the record under its hash, points
HEAD at that hash, and clears the index. -/
theorem commit_spec (hashObject : String → String) (s : DuckState) (m t : String)
    (idx : List StagingEntry) (h : s.index = some idx) :
    commit hashObject s m t =
      (⟨(hashCommit hashObject ⟨t, m, idx, s.head⟩,
          .commitObj ⟨t, m, idx, s.head⟩) :: s.objects,
        some (hashCommit hashObject ⟨t, m, idx, s.head⟩), some []⟩,
       .ok (hashCommit hashObject ⟨t, m, idx, s.head⟩)) := by
  simp [commit, getCurrentHead, putObject, h]

/-- Reading an association list whose keys are distinct finds the value of
any pair the list contains. -/
theorem lookupA_of_nodup_mem : ∀ (l : List (String × Obj)) (k : String) (v : Obj),
    (l.map Prod.fst).Nodup → (k, v) ∈ l → lookupA l k = some v := by
  intro l
  induction l with
  | nil => intro k v _ hm; cases hm
  | cons kv rest ih =>
    intro k v hnd hm
    obtain ⟨k1, v1⟩ := kv
    rw [List.map_cons, List.nodup_cons] at hnd
    rcases List.mem_cons.mp hm with heq | hmem
    · cases heq
      simp [lookupA]
    · have hk : k1 ≠ k := by
        intro hk1
        exact hnd.1 (hk1 ▸ List.mem_map.mpr ⟨(k, v), hmem, rfl⟩)
      simpa [lookupA, hk] using ih k v hnd.2 hmem

/-- A stored key stays resolvable across any further store write. -/
theorem lookupObject_put_isSome (s : DuckState) (k k2 : String) (v : Obj)
    (h : (lookupObject s k2).isSome = true) :
    (lookupObject (putObject s k v) k2).isSome = true := by
  by_cases hk : k = k2 <;> simp [lookupObject, putObject, lookupA, hk] at h ⊢
  exact h

/-- `init` always results in a present HEAD file. -/
theorem init_head_isSome (s : DuckState) : (init s).head.isSome = true := by
  by_cases hh : s.head.isSome
  · simp [init, hh]
  · cases hi : s.index <;> simp [init, hh, hi]

/-- `init` leaves a repository with a present HEAD file untouched. -/
theorem init_of_isSome (s : DuckState) (h : s.head.isSome = true) : init s = s := by
  simp [init, h]

/-! The claims. -/

/-- Claim C1: after `add(f)` then `commit(m)` on an initialized repository,
the index is empty and HEAD is the hash of a stored commit record whose
files field is exactly the staged entry sequence and whose parent field is
the HEAD value read just before the commit. -/
theorem c1_add_then_commit (hashObject : String → String) (s : DuckState)
    (idx : List StagingEntry) (f content m t h0 : String)
    (hidx : s.index = some idx) (hhead : s.head = some h0) :
    getCurrentHead (add hashObject s f (some content)).1 = some h0 ∧
    (commit hashObject (add hashObject s f (some content)).1 m t).2 =
      .ok (hashCommit hashObject ⟨t, m, idx ++ [⟨f, hashObject content⟩], some h0⟩) ∧
    (commit hashObject (add hashObject s f (some content)).1 m t).1.head =
      some (hashCommit hashObject ⟨t, m, idx ++ [⟨f, hashObject content⟩], some h0⟩) ∧
    (commit hashObject (add hashObject s f (some content)).1 m t).1.index = some [] ∧
    lookupObject (commit hashObject (add hashObject s f (some content)).1 m t).1
        (hashCommit hashObject ⟨t, m, idx ++ [⟨f, hashObject content⟩], some h0⟩) =
      some (.commitObj ⟨t, m, idx ++ [⟨f, hashObject content⟩], some h0⟩) := by
  rw [add_spec hashObject s f content idx hidx, hhead]
  rw [commit_spec hashObject _ m t (idx ++ [⟨f, hashObject content⟩]) rfl]
  exact ⟨rfl, rfl, rfl, rfl, by simp [lookupObject, lookupA]⟩

/-- Witness for C1 at a concrete repository. -/
theorem c1_add_then_commit_witness :
    freshInit.index = some [] ∧ freshInit.head = some "" ∧
    (getCurrentHead (add idHash freshInit "a.txt" (some "hello")).1 = some "" ∧
     (commit idHash (add idHash freshInit "a.txt" (some "hello")).1 "m" "t").2 =
       .ok (hashCommit idHash ⟨"t", "m", [] ++ [⟨"a.txt", idHash "hello"⟩], some ""⟩) ∧
     (commit idHash (add idHash freshInit "a.txt" (some "hello")).1 "m" "t").1.head =
       some (hashCommit idHash ⟨"t", "m", [] ++ [⟨"a.txt", idHash "hello"⟩], some ""⟩) ∧
     (commit idHash (add idHash freshInit "a.txt" (some "hello")).1 "m" "t").1.index = some [] ∧
     lookupObject (commit idHash (add idHash freshInit "a.txt" (some "hello")).1 "m" "t").1
         (hashCommit idHash ⟨"t", "m", [] ++ [⟨"a.txt", idHash "hello"⟩], some ""⟩) =
       some (.commitObj ⟨"t", "m", [] ++ [⟨"a.txt", idHash "hello"⟩], some ""⟩)) :=
  ⟨rfl, rfl, c1_add_then_commit idHash freshInit [] "a.txt" "hello" "m" "t" "" rfl rfl⟩

/-- Claim C3 counterexample: a hash that addresses a stored blob rather
than a commit object (reachable by staging a file and then showing the
hash `add` printed) makes `showCommitDiff` raise a JSON parse error
instead of reporting that the commit was not found. -/
theorem c3_blob_hash_raises :
    lookupObject (add idHash (init ⟨[], none, none⟩) "a.txt" (some "hello")).1
        (idHash "hello") = some (.blob "hello") ∧
    showCommitDiff (add idHash (init ⟨[], none, none⟩) "a.txt" (some "hello")).1
        (idHash "hello") = .error .badJson := by
  exact ⟨by decide, rfl⟩

/-- Claim C3 amended: for every hash that addresses no stored object at
all, `showCommitDiff` reports that the commit was not found and returns
normally. -/
theorem c3_unknown_hash_not_found (s : DuckState) (h : String)
    (habs : lookupObject s h = none) : showCommitDiff s h = .ok .notFound := by
  simp [showCommitDiff, habs, parseStoredOpt]

/-- Witness for the amended C3 at a concrete repository. -/
theorem c3_unknown_hash_not_found_witness :
    lookupObject freshInit "zzzz" = none ∧
    showCommitDiff freshInit "zzzz" = .ok .notFound :=
  ⟨rfl, c3_unknown_hash_not_found freshInit "zzzz" rfl⟩

/-- Claim C6: the hash is deterministic, so staging the same content twice
appends two entries carrying the same hash, and the blob stored under the
hash of a content reads back as exactly that content. -/
theorem c6_hash_roundtrip (hashObject : String → String) (s : DuckState)
    (idx : List StagingEntry) (p1 p2 content : String) (hidx : s.index = some idx) :
    (add hashObject (add hashObject s p1 (some content)).1 p2 (some content)).1.index =
      some (idx ++ [⟨p1, hashObject content⟩] ++ [⟨p2, hashObject content⟩]) ∧
    getFileContent (add hashObject (add hashObject s p1 (some content)).1 p2 (some content)).1
      (hashObject content) = .ok content := by
  rw [add_spec hashObject s p1 content idx hidx]
  rw [add_spec hashObject _ p2 content (idx ++ [⟨p1, hashObject content⟩]) rfl]
  exact ⟨rfl, by simp [getFileContent, lookupObject, lookupA, storedString]⟩

/-- Witness for C6 at a concrete repository. -/
theorem c6_hash_roundtrip_witness :
    freshInit.index = some [] ∧
    ((add idHash (add idHash freshInit "a.txt" (some "hi")).1 "b.txt" (some "hi")).1.index =
      some ([] ++ [⟨"a.txt", idHash "hi"⟩] ++ [⟨"b.txt", idHash "hi"⟩]) ∧
     getFileContent (add idHash (add idHash freshInit "a.txt" (some "hi")).1 "b.txt"
       (some "hi")).1 (idHash "hi") = .ok "hi") :=
  ⟨rfl, c6_hash_roundtrip idHash freshInit [] "a.txt" "b.txt" "hi" rfl⟩

/-- Claim C7: after `init` on a fresh directory HEAD is the empty string
and the index is the empty sequence with the object store untouched;
`init` on an already initialized repository changes nothing, and running
`init` twice equals running it once. -/
theorem c7_init_idempotent (objs : List (String × Obj)) (s s2 : DuckState)
    (hs : s.head.isSome = true) :
    init ⟨objs, none, none⟩ = ⟨objs, some "", some []⟩ ∧
    init s = s ∧
    init (init s2) = init s2 := by
  exact ⟨rfl, init_of_isSome s hs, init_of_isSome _ (init_head_isSome s2)⟩

/-- Witness for C7 at concrete repositories. -/
theorem c7_init_idempotent_witness :
    (⟨[("k", .blob "v")], some "x", some []⟩ : DuckState).head.isSome = true ∧
    (init ⟨[("k", .blob "v")], none, none⟩ = ⟨[("k", .blob "v")], some "", some []⟩ ∧
     init ⟨[("k", .blob "v")], some "x", some []⟩ = ⟨[("k", .blob "v")], some "x", some []⟩ ∧
     init (init ⟨[], none, some [⟨"p", "h"⟩]⟩) = init ⟨[], none, some [⟨"p", "h"⟩]⟩) :=
  ⟨rfl, c7_init_idempotent [("k", .blob "v")] ⟨[("k", .blob "v")], some "x", some []⟩
    ⟨[], none, some [⟨"p", "h"⟩]⟩ rfl⟩

/-- Claim C8: committing with an empty staging index succeeds with no
error, stores a commit record with an empty files sequence, points HEAD at
its hash, and leaves the index empty. -/
theorem c8_empty_commit (hashObject : String → String) (s : DuckState) (m t : String)
    (hidx : s.index = some []) :
    (commit hashObject s m t).2 = .ok (hashCommit hashObject ⟨t, m, [], s.head⟩) ∧
    (commit hashObject s m t).1.head = some (hashCommit hashObject ⟨t, m, [], s.head⟩) ∧
    (commit hashObject s m t).1.index = some [] ∧
    lookupObject (commit hashObject s m t).1 (hashCommit hashObject ⟨t, m, [], s.head⟩) =
      some (.commitObj ⟨t, m, [], s.head⟩) := by
  rw [commit_spec hashObject s m t [] hidx]
  exact ⟨rfl, rfl, rfl, by simp [lookupObject, lookupA]⟩

/-- Witness for C8 at a concrete repository. -/
theorem c8_empty_commit_witness :
    freshInit.index = some [] ∧
    ((commit idHash freshInit "m" "t").2 = .ok (hashCommit idHash ⟨"t", "m", [], freshInit.head⟩) ∧
     (commit idHash freshInit "m" "t").1.head =
       some (hashCommit idHash ⟨"t", "m", [], freshInit.head⟩) ∧
     (commit idHash freshInit "m" "t").1.index = some [] ∧
     lookupObject (commit idHash freshInit "m" "t").1
         (hashCommit idHash ⟨"t", "m", [], freshInit.head⟩) =
       some (.commitObj ⟨"t", "m", [], freshInit.head⟩)) :=
  ⟨rfl, c8_empty_commit idHash freshInit "m" "t" rfl⟩

/-- With a falsy parent value, the per file loop of `showCommitDiff`
classifies every file whose blob resolves as First commit. -/
theorem showFiles_first (S : DuckState) (parent : Option String)
    (hpar : jsTruthy parent = false) :
    ∀ files : List StagingEntry, (∀ e ∈ files, (lookupObject S e.hash).isSome = true) →
    ∃ rs, showFiles S parent files = .ok rs ∧ rs.length = files.length ∧
      rs.all FileReport.isFirst = true := by
  intro files
  induction files with
  | nil => intro _; exact ⟨[], rfl, rfl, rfl⟩
  | cons e rest ih =>
    intro hall
    have he := hall e (List.mem_cons_self e rest)
    obtain ⟨o, ho⟩ := Option.isSome_iff_exists.mp he
    obtain ⟨rs, hrs, hlen, hfirst⟩ := ih (fun x hx => hall x (List.mem_cons_of_mem e hx))
    refine ⟨.firstCommit e.path (storedString o) :: rs, ?_, ?_, ?_⟩
    · simp [showFiles, getFileContent, ho, hpar, hrs]
    · simp [hlen]
    · simp [List.all_cons, FileReport.isFirst, hfirst]

/-- One unfolding step of the log loop with nonzero fuel. -/
theorem logLoop_succ (s : DuckState) (fuel : Nat) (cur : Option String) :
    logLoop s (Nat.succ fuel) cur =
      if jsTruthy cur then
        match lookupObject s (cur.getD "") with
        | none => .error .enoent
        | some o =>
          match parseStoredObj o with
          | .record c =>
            match logLoop s fuel c.parent with
            | .ok rest => .ok ((cur.getD "", .record c) :: rest)
            | .error e => .error e
          | .nullValue => .error .typeError
          | .falsyValue => .ok [(cur.getD "", .nonRecord)]
          | .invalid => .error .badJson
      else .ok [] := rfl

/-- A commit whose record resolves at the head and whose parent value is
falsy is the whole log output. -/
theorem log_single (S : DuckState) (ch : String) (c : CommitData)
    (hch : ch ≠ "") (hhd : S.head = some ch)
    (hlk : lookupObject S ch = some (.commitObj c)) (hpar : jsTruthy c.parent = false) :
    log S 2 = .ok [(ch, .record c)] := by
  have ht : jsTruthy (some ch) = true := by simp [jsTruthy, hch]
  have h2 : logLoop S 2 (some ch) = .ok [(ch, .record c)] := by
    show logLoop S (Nat.succ 1) (some ch) = .ok [(ch, .record c)]
    simp [logLoop, ht, hpar, hlk, parseStoredObj]
  simp [log, getCurrentHead, hhd, h2]

/-- A commit whose record resolves and whose parent value is falsy shows
every resolvable file as First commit. -/
theorem show_all_first (S : DuckState) (ch : String) (c : CommitData)
    (hlk : lookupObject S ch = some (.commitObj c)) (hpar : jsTruthy c.parent = false)
    (hblobs : ∀ e ∈ c.files, (lookupObject S e.hash).isSome = true) :
    ∃ rs, showCommitDiff S ch = .ok (.changes rs) ∧ rs.length = c.files.length ∧
      rs.all FileReport.isFirst = true := by
  obtain ⟨rs, hrs, hlen, hall⟩ := showFiles_first S c.parent hpar c.files hblobs
  exact ⟨rs, by simp [showCommitDiff, hlk, parseStoredOpt, parseStoredObj, hrs], hlen, hall⟩

/-- Claim C9: a commit made while the HEAD file exists but is empty stores
a record whose parent field is the empty string, not null; `log` stops at
that commit, and `showCommitDiff` classifies each of its files as First
commit. -/
theorem c9_empty_string_parent (hashObject : String → String) (s : DuckState)
    (idx : List StagingEntry) (m t : String)
    (hidx : s.index = some idx) (hhead : s.head = some "")
    (hblobs : ∀ e ∈ idx, (lookupObject s e.hash).isSome = true)
    (hch : hashCommit hashObject ⟨t, m, idx, some ""⟩ ≠ "") :
    (commit hashObject s m t).2 = .ok (hashCommit hashObject ⟨t, m, idx, some ""⟩) ∧
    lookupObject (commit hashObject s m t).1 (hashCommit hashObject ⟨t, m, idx, some ""⟩) =
      some (.commitObj ⟨t, m, idx, some ""⟩) ∧
    (⟨t, m, idx, some ""⟩ : CommitData).parent = some "" ∧
    (⟨t, m, idx, some ""⟩ : CommitData).parent ≠ none ∧
    log (commit hashObject s m t).1 2 =
      .ok [(hashCommit hashObject ⟨t, m, idx, some ""⟩, .record ⟨t, m, idx, some ""⟩)] ∧
    ∃ rs, showCommitDiff (commit hashObject s m t).1
        (hashCommit hashObject ⟨t, m, idx, some ""⟩) = .ok (.changes rs) ∧
      rs.length = idx.length ∧ rs.all FileReport.isFirst = true := by
  have hc := commit_spec hashObject s m t idx hidx
  rw [hhead] at hc
  rw [hc]
  have hblobs2 : ∀ e ∈ idx,
      (lookupObject ⟨(hashCommit hashObject ⟨t, m, idx, some ""⟩,
          Obj.commitObj ⟨t, m, idx, some ""⟩) :: s.objects,
        some (hashCommit hashObject ⟨t, m, idx, some ""⟩), some []⟩ e.hash).isSome = true := by
    intro e he
    by_cases hx : hashCommit hashObject ⟨t, m, idx, some ""⟩ = e.hash
    · simp [lookupObject, lookupA, hx]
    · simpa [lookupObject, lookupA, hx] using hblobs e he
  refine ⟨rfl, by simp [lookupObject, lookupA], rfl, by simp, ?_, ?_⟩
  · exact log_single
      ⟨(hashCommit hashObject ⟨t, m, idx, some ""⟩,
          Obj.commitObj ⟨t, m, idx, some ""⟩) :: s.objects,
        some (hashCommit hashObject ⟨t, m, idx, some ""⟩), some []⟩
      (hashCommit hashObject ⟨t, m, idx, some ""⟩) ⟨t, m, idx, some ""⟩
      hch rfl (by simp [lookupObject, lookupA]) (by simp [jsTruthy])
  · exact show_all_first
      ⟨(hashCommit hashObject ⟨t, m, idx, some ""⟩,
          Obj.commitObj ⟨t, m, idx, some ""⟩) :: s.objects,
        some (hashCommit hashObject ⟨t, m, idx, some ""⟩), some []⟩
      (hashCommit hashObject ⟨t, m, idx, some ""⟩) ⟨t, m, idx, some ""⟩
      (by simp [lookupObject, lookupA]) (by simp [jsTruthy]) hblobs2

/-- Witness for C9 at a concrete repository with one staged file. -/
theorem c9_empty_string_parent_witness :
    (⟨[("h1", .blob "x")], some "", some [⟨"a.txt", "h1"⟩]⟩ : DuckState).index =
      some [⟨"a.txt", "h1"⟩] ∧
    (⟨[("h1", .blob "x")], some "", some [⟨"a.txt", "h1"⟩]⟩ : DuckState).head = some "" ∧
    hashCommit idHash ⟨"t", "m", [⟨"a.txt", "h1"⟩], some ""⟩ ≠ "" ∧
    ((commit idHash ⟨[("h1", .blob "x")], some "", some [⟨"a.txt", "h1"⟩]⟩ "m" "t").2 =
       .ok (hashCommit idHash ⟨"t", "m", [⟨"a.txt", "h1"⟩], some ""⟩) ∧
     lookupObject (commit idHash ⟨[("h1", .blob "x")], some "", some [⟨"a.txt", "h1"⟩]⟩
         "m" "t").1 (hashCommit idHash ⟨"t", "m", [⟨"a.txt", "h1"⟩], some ""⟩) =
       some (.commitObj ⟨"t", "m", [⟨"a.txt", "h1"⟩], some ""⟩) ∧
     (⟨"t", "m", [⟨"a.txt", "h1"⟩], some ""⟩ : CommitData).parent = some "" ∧
     (⟨"t", "m", [⟨"a.txt", "h1"⟩], some ""⟩ : CommitData).parent ≠ none ∧
     log (commit idHash ⟨[("h1", .blob "x")], some "", some [⟨"a.txt", "h1"⟩]⟩ "m" "t").1 2 =
       .ok [(hashCommit idHash ⟨"t", "m", [⟨"a.txt", "h1"⟩], some ""⟩,
             .record ⟨"t", "m", [⟨"a.txt", "h1"⟩], some ""⟩)] ∧
     ∃ rs, showCommitDiff
         (commit idHash ⟨[("h1", .blob "x")], some "", some [⟨"a.txt", "h1"⟩]⟩ "m" "t").1
         (hashCommit idHash ⟨"t", "m", [⟨"a.txt", "h1"⟩], some ""⟩) = .ok (.changes rs) ∧
       rs.length = ([⟨"a.txt", "h1"⟩] : List StagingEntry).length ∧
       rs.all FileReport.isFirst = true) :=
  ⟨rfl, rfl, by decide,
    c9_empty_string_parent idHash ⟨[("h1", .blob "x")], some "", some [⟨"a.txt", "h1"⟩]⟩
      [⟨"a.txt", "h1"⟩] "m" "t" rfl rfl (by decide) (by decide)⟩

/-- Claim C5 counterexample: a stored commit whose parent hash dangles (no
object at that hash) but whose files list is empty makes `showCommitDiff`
return normally with an empty report, because the parent is only consulted
while diffing a file; the claim says the diff operation fails here. -/
theorem c5_empty_files_show_succeeds :
    lookupObject ⟨[("A", .commitObj ⟨"t", "m", [], some "B"⟩)], some "A", some []⟩ "B" =
      none ∧
    showCommitDiff ⟨[("A", .commitObj ⟨"t", "m", [], some "B"⟩)], some "A", some []⟩ "A" =
      .ok (.changes []) := by
  exact ⟨by decide, rfl⟩

/-- Claim C5 amended: a dangling parent hash makes `log` fail with a read
error; `showCommitDiff` fails when the commit has at least one file entry,
either with a type error on a dangling parent (once the file blob itself
resolves) or with a read error on a dangling file blob; and the clean
terminal case of a falsy parent is distinguished: there both operations
return normally. -/
theorem c5_corrupt_history (sa : DuckState) (ha hpa : String) (ca : CommitData)
    (ha1 : sa.head = some ha) (ha2 : ha ≠ "")
    (ha3 : lookupObject sa ha = some (.commitObj ca))
    (ha4 : ca.parent = some hpa) (ha5 : hpa ≠ "") (ha6 : lookupObject sa hpa = none)
    (sb : DuckState) (hb hpb : String) (cb : CommitData) (eb : StagingEntry)
    (restb : List StagingEntry) (ob : Obj)
    (hb1 : lookupObject sb hb = some (.commitObj cb)) (hb2 : cb.files = eb :: restb)
    (hb3 : lookupObject sb eb.hash = some ob)
    (hb4 : cb.parent = some hpb) (hb5 : hpb ≠ "") (hb6 : lookupObject sb hpb = none)
    (sc : DuckState) (hc : String) (cc : CommitData) (ec : StagingEntry)
    (restc : List StagingEntry)
    (hc1 : lookupObject sc hc = some (.commitObj cc)) (hc2 : cc.files = ec :: restc)
    (hc3 : lookupObject sc ec.hash = none)
    (sd : DuckState) (hd : String) (cd : CommitData) (ed : StagingEntry) (od : Obj)
    (hd1 : sd.head = some hd) (hd2 : hd ≠ "")
    (hd3 : lookupObject sd hd = some (.commitObj cd))
    (hd4 : cd.parent = some "") (hd5 : cd.files = [ed])
    (hd6 : lookupObject sd ed.hash = some od) :
    log sa 2 = .error .enoent ∧
    showCommitDiff sb hb = .error .typeError ∧
    showCommitDiff sc hc = .error .enoent ∧
    log sd 2 = .ok [(hd, .record cd)] ∧
    showCommitDiff sd hd = .ok (.changes [.firstCommit ed.path (storedString od)]) := by
  refine ⟨?_, ?_, ?_, ?_, ?_⟩
  · have ht : jsTruthy (some ha) = true := by simp [jsTruthy, ha2]
    have htp : jsTruthy (some hpa) = true := by simp [jsTruthy, ha5]
    have h1 : logLoop sa (Nat.succ 0) (some hpa) = .error .enoent := by
      rw [logLoop_succ]
      simp [htp, ha6]
    have h2 : logLoop sa (Nat.succ (Nat.succ 0)) (some ha) = .error .enoent := by
      rw [logLoop_succ]
      simp [ht, ha3, parseStoredObj, ha4, h1]
    have h3 : log sa 2 = logLoop sa (Nat.succ (Nat.succ 0)) (some ha) := by
      simp only [log, getCurrentHead, ha1]
    rw [h3, h2]
  · have htp : jsTruthy (some hpb) = true := by simp [jsTruthy, hb5]
    simp [showCommitDiff, hb1, parseStoredOpt, parseStoredObj, showFiles, hb2,
      getFileContent, hb3, htp, hb4, hb6]
  · simp [showCommitDiff, hc1, parseStoredOpt, parseStoredObj, showFiles, hc2,
      getFileContent, hc3]
  · exact log_single sd hd cd hd2 hd1 hd3 (by simp [jsTruthy, hd4])
  · simp [showCommitDiff, hd3, parseStoredOpt, parseStoredObj, showFiles, hd5,
      getFileContent, hd6, jsTruthy, hd4]

/-- Witness for the amended C5 at concrete corrupted and clean
repositories. -/
theorem c5_corrupt_history_witness :
    log ⟨[("A", .commitObj ⟨"t", "m", [], some "B"⟩)], some "A", some []⟩ 2 =
      .error .enoent ∧
    showCommitDiff ⟨[("A", .commitObj ⟨"t", "m", [⟨"p", "X"⟩], some "B"⟩),
      ("X", .blob "x")], some "A", some []⟩ "A" = .error .typeError ∧
    showCommitDiff ⟨[("A", .commitObj ⟨"t", "m", [⟨"p", "X"⟩], some ""⟩)],
      some "A", some []⟩ "A" = .error .enoent ∧
    log ⟨[("A", .commitObj ⟨"t", "m", [⟨"p", "X"⟩], some ""⟩), ("X", .blob "x")],
      some "A", some []⟩ 2 =
      .ok [("A", .record ⟨"t", "m", [⟨"p", "X"⟩], some ""⟩)] ∧
    showCommitDiff ⟨[("A", .commitObj ⟨"t", "m", [⟨"p", "X"⟩], some ""⟩),
      ("X", .blob "x")], some "A", some []⟩ "A" =
      .ok (.changes [.firstCommit "p" (storedString (.blob "x"))]) :=
  c5_corrupt_history
    ⟨[("A", .commitObj ⟨"t", "m", [], some "B"⟩)], some "A", some []⟩ "A" "B"
    ⟨"t", "m", [], some "B"⟩ rfl (by decide) rfl rfl (by decide) rfl
    ⟨[("A", .commitObj ⟨"t", "m", [⟨"p", "X"⟩], some "B"⟩), ("X", .blob "x")],
      some "A", some []⟩ "A" "B" ⟨"t", "m", [⟨"p", "X"⟩], some "B"⟩ ⟨"p", "X"⟩ [] (.blob "x")
    rfl rfl rfl rfl (by decide) rfl
    ⟨[("A", .commitObj ⟨"t", "m", [⟨"p", "X"⟩], some ""⟩)], some "A", some []⟩ "A"
    ⟨"t", "m", [⟨"p", "X"⟩], some ""⟩ ⟨"p", "X"⟩ [] rfl rfl rfl
    ⟨[("A", .commitObj ⟨"t", "m", [⟨"p", "X"⟩], some ""⟩), ("X", .blob "x")],
      some "A", some []⟩ "A" ⟨"t", "m", [⟨"p", "X"⟩], some ""⟩ ⟨"p", "X"⟩ (.blob "x")
    rfl (by decide) rfl rfl rfl rfl

/-- Claim C4: staging the same path twice before a commit appends
unconditionally, so the resulting commit record holds two file entries for
that one path; and the diff of a later commit touching that path resolves
the parent counterpart as the first matching entry of the parent list, so
the shown before text is the first staged content, not the last. -/
theorem c4_duplicate_path_first_match (hashObject : String → String)
    (p c1 c2 c3 m1 t1 m2 t2 : String)
    (hnd : ([hashObject c1, hashObject c2, hashObject c3,
             hashCommit hashObject (c4rec1 hashObject p c1 c2 m1 t1),
             hashCommit hashObject (c4rec2 hashObject p c1 c2 c3 m1 t1 m2 t2)] :
            List String).Nodup)
    (hch1 : hashCommit hashObject (c4rec1 hashObject p c1 c2 m1 t1) ≠ "") :
    lookupObject (c4state hashObject p c1 c2 c3 m1 t1 m2 t2)
        (hashCommit hashObject (c4rec1 hashObject p c1 c2 m1 t1)) =
      some (.commitObj (c4rec1 hashObject p c1 c2 m1 t1)) ∧
    (c4rec1 hashObject p c1 c2 m1 t1).files =
      [⟨p, hashObject c1⟩, ⟨p, hashObject c2⟩] ∧
    getParentFileContent (c4state hashObject p c1 c2 c3 m1 t1 m2 t2)
        (c4rec1 hashObject p c1 c2 m1 t1) p = .ok (some c1) ∧
    showCommitDiff (c4state hashObject p c1 c2 c3 m1 t1 m2 t2)
        (hashCommit hashObject (c4rec2 hashObject p c1 c2 c3 m1 t1 m2 t2)) =
      .ok (.changes [.modified p c3 c1]) := by
  simp only [List.nodup_cons, List.mem_cons, List.mem_singleton, List.not_mem_nil,
    not_or, List.nodup_nil, and_true, not_false_iff] at hnd
  obtain ⟨⟨h12, h13, h14, h15⟩, ⟨h23, h24, h25⟩, ⟨h34, h35⟩, h45⟩ := hnd
  simp only [c4rec1, c4rec2] at h14 h15 h24 h25 h34 h35 h45 hch1 ⊢
  have hstate : c4state hashObject p c1 c2 c3 m1 t1 m2 t2 =
      ⟨[(hashCommit hashObject ⟨t2, m2, [⟨p, hashObject c3⟩],
            some (hashCommit hashObject
              ⟨t1, m1, [⟨p, hashObject c1⟩, ⟨p, hashObject c2⟩], some ""⟩)⟩,
          .commitObj ⟨t2, m2, [⟨p, hashObject c3⟩],
            some (hashCommit hashObject
              ⟨t1, m1, [⟨p, hashObject c1⟩, ⟨p, hashObject c2⟩], some ""⟩)⟩),
        (hashObject c3, .blob c3),
        (hashCommit hashObject ⟨t1, m1, [⟨p, hashObject c1⟩, ⟨p, hashObject c2⟩], some ""⟩,
          .commitObj ⟨t1, m1, [⟨p, hashObject c1⟩, ⟨p, hashObject c2⟩], some ""⟩),
        (hashObject c2, .blob c2), (hashObject c1, .blob c1)],
        some (hashCommit hashObject ⟨t2, m2, [⟨p, hashObject c3⟩],
          some (hashCommit hashObject
            ⟨t1, m1, [⟨p, hashObject c1⟩, ⟨p, hashObject c2⟩], some ""⟩)⟩),
        some []⟩ := rfl
  rw [hstate]
  have hl1 : lookupObject
      ⟨[(hashCommit hashObject ⟨t2, m2, [⟨p, hashObject c3⟩],
            some (hashCommit hashObject
              ⟨t1, m1, [⟨p, hashObject c1⟩, ⟨p, hashObject c2⟩], some ""⟩)⟩,
          .commitObj ⟨t2, m2, [⟨p, hashObject c3⟩],
            some (hashCommit hashObject
              ⟨t1, m1, [⟨p, hashObject c1⟩, ⟨p, hashObject c2⟩], some ""⟩)⟩),
        (hashObject c3, .blob c3),
        (hashCommit hashObject ⟨t1, m1, [⟨p, hashObject c1⟩, ⟨p, hashObject c2⟩], some ""⟩,
          .commitObj ⟨t1, m1, [⟨p, hashObject c1⟩, ⟨p, hashObject c2⟩], some ""⟩),
        (hashObject c2, .blob c2), (hashObject c1, .blob c1)],
        some (hashCommit hashObject ⟨t2, m2, [⟨p, hashObject c3⟩],
          some (hashCommit hashObject
            ⟨t1, m1, [⟨p, hashObject c1⟩, ⟨p, hashObject c2⟩], some ""⟩)⟩),
        some []⟩
      (hashCommit hashObject ⟨t1, m1, [⟨p, hashObject c1⟩, ⟨p, hashObject c2⟩], some ""⟩) =
      some (.commitObj ⟨t1, m1, [⟨p, hashObject c1⟩, ⟨p, hashObject c2⟩], some ""⟩) := by
    simp [lookupObject, lookupA, Ne.symm h45, h34]
  have hgp : getParentFileContent
      ⟨[(hashCommit hashObject ⟨t2, m2, [⟨p, hashObject c3⟩],
            some (hashCommit hashObject
              ⟨t1, m1, [⟨p, hashObject c1⟩, ⟨p, hashObject c2⟩], some ""⟩)⟩,
          .commitObj ⟨t2, m2, [⟨p, hashObject c3⟩],
            some (hashCommit hashObject
              ⟨t1, m1, [⟨p, hashObject c1⟩, ⟨p, hashObject c2⟩], some ""⟩)⟩),
        (hashObject c3, .blob c3),
        (hashCommit hashObject ⟨t1, m1, [⟨p, hashObject c1⟩, ⟨p, hashObject c2⟩], some ""⟩,
          .commitObj ⟨t1, m1, [⟨p, hashObject c1⟩, ⟨p, hashObject c2⟩], some ""⟩),
        (hashObject c2, .blob c2), (hashObject c1, .blob c1)],
        some (hashCommit hashObject ⟨t2, m2, [⟨p, hashObject c3⟩],
          some (hashCommit hashObject
            ⟨t1, m1, [⟨p, hashObject c1⟩, ⟨p, hashObject c2⟩], some ""⟩)⟩),
        some []⟩
      ⟨t1, m1, [⟨p, hashObject c1⟩, ⟨p, hashObject c2⟩], some ""⟩ p = .ok (some c1) := by
    simp [getParentFileContent, List.find?, getFileContent, lookupObject,
      lookupA, Ne.symm h15, Ne.symm h13, Ne.symm h14, Ne.symm h12, storedString]
  refine ⟨hl1, by trivial, hgp, ?_⟩
  have ht : jsTruthy (some (hashCommit hashObject
      ⟨t1, m1, [⟨p, hashObject c1⟩, ⟨p, hashObject c2⟩], some ""⟩)) = true := by
    simp [jsTruthy, hch1]
  simp [showCommitDiff, lookupObject, lookupA, parseStoredOpt, parseStoredObj,
    showFiles, getFileContent, Ne.symm h35, storedString, ht,
    Ne.symm h45, h34, hgp]

set_option maxRecDepth 100000 in
/-- Witness for C4 at concrete contents. -/
theorem c4_duplicate_path_first_match_witness :
    ([idHash "one", idHash "two", idHash "three",
      hashCommit idHash (c4rec1 idHash "a.txt" "one" "two" "c1" "t1"),
      hashCommit idHash (c4rec2 idHash "a.txt" "one" "two" "three" "c1" "t1" "c2" "t2")] :
      List String).Nodup ∧
    (lookupObject (c4state idHash "a.txt" "one" "two" "three" "c1" "t1" "c2" "t2")
        (hashCommit idHash (c4rec1 idHash "a.txt" "one" "two" "c1" "t1")) =
      some (.commitObj (c4rec1 idHash "a.txt" "one" "two" "c1" "t1")) ∧
     (c4rec1 idHash "a.txt" "one" "two" "c1" "t1").files =
       [⟨"a.txt", idHash "one"⟩, ⟨"a.txt", idHash "two"⟩] ∧
     getParentFileContent (c4state idHash "a.txt" "one" "two" "three" "c1" "t1" "c2" "t2")
        (c4rec1 idHash "a.txt" "one" "two" "c1" "t1") "a.txt" = .ok (some "one") ∧
     showCommitDiff (c4state idHash "a.txt" "one" "two" "three" "c1" "t1" "c2" "t2")
        (hashCommit idHash (c4rec2 idHash "a.txt" "one" "two" "three" "c1" "t1" "c2" "t2")) =
       .ok (.changes [.modified "a.txt" "three" "one"])) :=
  ⟨by decide, c4_duplicate_path_first_match idHash "a.txt" "one" "two" "three"
    "c1" "t1" "c2" "t2" (by decide) (by decide)⟩

/-- A commit sequence creates one chain record per commit. -/
theorem chainFrom_length (hashObject : String → String) :
    ∀ (msgs : List (String × String)) (p : Option String),
    (chainFrom hashObject p msgs).length = msgs.length := by
  intro msgs
  induction msgs with
  | nil => intro p; rfl
  | cons mt rest ih =>
    intro p
    obtain ⟨m, t⟩ := mt
    simp [chainFrom, ih]

/-- The chain a commit sequence creates is parent linked from the starting
parent value. -/
theorem linksFrom_chainFrom (hashObject : String → String) :
    ∀ (msgs : List (String × String)) (p : Option String),
    linksFrom p (chainFrom hashObject p msgs) = true := by
  intro msgs
  induction msgs with
  | nil => intro p; rfl
  | cons mt rest ih =>
    intro p
    obtain ⟨m, t⟩ := mt
    simp [chainFrom, linksFrom, ih]

/-- Running a commit sequence from a state with a clean index adds exactly
the chain records to the store (newest first), moves HEAD to the chain end,
and leaves the index clean. -/
theorem commitList_spec (hashObject : String → String) :
    ∀ (msgs : List (String × String)) (s : DuckState), s.index = some [] →
    commitList hashObject s msgs =
      ⟨((chainFrom hashObject s.head msgs).map
          (fun hc => (hc.1, Obj.commitObj hc.2))).reverse ++ s.objects,
        chainEnd hashObject s.head msgs, some []⟩ := by
  intro msgs
  induction msgs with
  | nil =>
    intro s hs
    cases s
    simp_all [commitList, chainFrom, chainEnd]
  | cons mt rest ih =>
    intro s hs
    obtain ⟨m, t⟩ := mt
    have hc := commit_spec hashObject s m t [] hs
    simp only [commitList]
    rw [hc, ih _ rfl]
    simp [chainFrom, chainEnd]

/-- Extending a newest first chain at its old end. -/
theorem chainInvT_snoc (S : DuckState) (term : Option String) (h : String)
    (c : CommitData) :
    ∀ (L : List (String × CommitData)) (cur : Option String),
    chainInvT S term cur (L ++ [(h, c)]) ↔
      (chainInvT S (some h) cur L ∧ h ≠ "" ∧
        lookupObject S h = some (.commitObj c) ∧ c.parent = term) := by
  intro L
  induction L with
  | nil =>
    intro cur
    simp [chainInvT]
  | cons hc0 rest ih =>
    intro cur
    obtain ⟨h0, c0⟩ := hc0
    simp [chainInvT, ih, and_assoc]

/-- If every record of the chain resolves in the store under its truthy
hash, the log invariant holds from the chain end back to the starting
parent value. -/
theorem chain_inv_of (hashObject : String → String) (S : DuckState) :
    ∀ (msgs : List (String × String)) (p : Option String),
    (∀ hc ∈ chainFrom hashObject p msgs,
      lookupObject S hc.1 = some (.commitObj hc.2) ∧ hc.1 ≠ "") →
    chainInvT S p (chainEnd hashObject p msgs)
      ((chainFrom hashObject p msgs).reverse) := by
  intro msgs
  induction msgs with
  | nil =>
    intro p _
    simp [chainFrom, chainEnd, chainInvT]
  | cons mt rest ih =>
    intro p hlk
    obtain ⟨m, t⟩ := mt
    simp only [chainFrom] at hlk
    simp only [chainFrom, chainEnd, List.reverse_cons]
    rw [chainInvT_snoc]
    refine ⟨ih (some (hashCommit hashObject ⟨t, m, [], p⟩))
      (fun hc hm => hlk hc (List.mem_cons_of_mem _ hm)), ?_, ?_, rfl⟩
    · exact (hlk _ (List.mem_cons_self _ _)).2
    · exact (hlk _ (List.mem_cons_self _ _)).1

/-- The log walk outputs exactly a chain satisfying the invariant with the
empty string terminal, given fuel one larger than the chain. -/
theorem logLoop_ok (S : DuckState) :
    ∀ (L : List (String × CommitData)) (cur : Option String),
    chainInvT S (some "") cur L →
    logLoop S (L.length + 1) cur =
      .ok (L.map (fun hc => (hc.1, LogEntryData.record hc.2))) := by
  intro L
  induction L with
  | nil =>
    intro cur hinv
    simp only [chainInvT] at hinv
    subst hinv
    rfl
  | cons hc0 rest ih =>
    intro cur hinv
    obtain ⟨h0, c0⟩ := hc0
    obtain ⟨hcur, hne, hlk, hrest⟩ := hinv
    subst hcur
    have ht : jsTruthy (some h0) = true := by simp [jsTruthy, hne]
    show logLoop S (Nat.succ (rest.length + 1)) (some h0) =
      .ok (((h0, c0) :: rest).map (fun hc => (hc.1, LogEntryData.record hc.2)))
    rw [logLoop_succ]
    simp [ht, hlk, parseStoredObj, ih c0.parent hrest]

/-- Claim C2 counterexample: after one commit on an initialized repository,
log yields the single record, and the parent field of that oldest record
is the empty string, not null as the claim states. -/
theorem c2_first_parent_not_null :
    log (commitList idHash freshInit [("m1", "t1")]) 2 =
      .ok [(hashCommit idHash ⟨"t1", "m1", [], some ""⟩,
            .record ⟨"t1", "m1", [], some ""⟩)] ∧
    (⟨"t1", "m1", [], some ""⟩ : CommitData).parent = some "" ∧
    (⟨"t1", "m1", [], some ""⟩ : CommitData).parent ≠ none := by
  exact ⟨rfl, rfl, by simp⟩

/-- Claim C2 amended: after N sequential commits whose hashes are distinct
and truthy, log yields exactly N records, newest to oldest, parent linked
from the newest down to the oldest, whose parent is the empty string HEAD
value of the freshly initialized repository (not null). -/
theorem c2_log_chain (hashObject : String → String) (msgs : List (String × String))
    (_hmsgs : msgs ≠ [])
    (hnd : ((chainFrom hashObject (some "") msgs).map Prod.fst).Nodup)
    (hne : ∀ h ∈ (chainFrom hashObject (some "") msgs).map Prod.fst, h ≠ "") :
    log (commitList hashObject freshInit msgs) (msgs.length + 1) =
      .ok (((chainFrom hashObject (some "") msgs).reverse).map
        (fun hc => (hc.1, LogEntryData.record hc.2))) ∧
    (chainFrom hashObject (some "") msgs).length = msgs.length ∧
    linksFrom (some "") (chainFrom hashObject (some "") msgs) = true := by
  have hS : commitList hashObject freshInit msgs =
      ⟨((chainFrom hashObject (some "") msgs).map
          (fun hc => (hc.1, Obj.commitObj hc.2))).reverse ++ [],
        chainEnd hashObject (some "") msgs, some []⟩ :=
    commitList_spec hashObject msgs ⟨[], some "", some []⟩ rfl
  have hlen := chainFrom_length hashObject msgs (some "")
  have hlk : ∀ hc ∈ chainFrom hashObject (some "") msgs,
      lookupObject (commitList hashObject freshInit msgs) hc.1 =
        some (.commitObj hc.2) ∧ hc.1 ≠ "" := by
    intro hc hmem
    refine ⟨?_, hne hc.1 (List.mem_map.mpr ⟨hc, hmem, rfl⟩)⟩
    rw [hS]
    show lookupA (((chainFrom hashObject (some "") msgs).map
      (fun hc => (hc.1, Obj.commitObj hc.2))).reverse ++ []) hc.1 =
      some (.commitObj hc.2)
    apply lookupA_of_nodup_mem
    · simp only [List.append_nil, List.map_reverse, List.map_map]
      rw [List.nodup_reverse]
      have hcomp : (Prod.fst ∘ fun hc : String × CommitData =>
          (hc.1, Obj.commitObj hc.2)) = Prod.fst := by
        funext x
        rfl
      rw [hcomp]
      exact hnd
    · simp only [List.append_nil, List.mem_reverse, List.mem_map]
      exact ⟨hc, hmem, rfl⟩
  have hinv := chain_inv_of hashObject (commitList hashObject freshInit msgs) msgs
    (some "") hlk
  have hlog := logLoop_ok (commitList hashObject freshInit msgs)
    ((chainFrom hashObject (some "") msgs).reverse)
    (chainEnd hashObject (some "") msgs) hinv
  have hrevlen : (chainFrom hashObject (some "") msgs).reverse.length = msgs.length := by
    rw [List.length_reverse, hlen]
  rw [hrevlen] at hlog
  refine ⟨?_, hlen, linksFrom_chainFrom hashObject msgs (some "")⟩
  have hhead : getCurrentHead (commitList hashObject freshInit msgs) =
      chainEnd hashObject (some "") msgs := by
    rw [hS]
    rfl
  rw [log, hhead]
  exact hlog

set_option maxRecDepth 1000000 in
/-- Witness for the amended C2 at a concrete two commit history. -/
theorem c2_log_chain_witness :
    ([("m1", "t1"), ("m2", "t2")] : List (String × String)) ≠ [] ∧
    ((chainFrom idHash (some "") [("m1", "t1"), ("m2", "t2")]).map Prod.fst).Nodup ∧
    (∀ h ∈ (chainFrom idHash (some "") [("m1", "t1"), ("m2", "t2")]).map Prod.fst,
      h ≠ "") ∧
    (log (commitList idHash freshInit [("m1", "t1"), ("m2", "t2")])
        (([("m1", "t1"), ("m2", "t2")] : List (String × String)).length + 1) =
      .ok (((chainFrom idHash (some "") [("m1", "t1"), ("m2", "t2")]).reverse).map
        (fun hc => (hc.1, LogEntryData.record hc.2))) ∧
     (chainFrom idHash (some "") [("m1", "t1"), ("m2", "t2")]).length =
       ([("m1", "t1"), ("m2", "t2")] : List (String × String)).length ∧
     linksFrom (some "") (chainFrom idHash (some "") [("m1", "t1"), ("m2", "t2")]) =
       true) :=
  ⟨by decide, by decide, by decide,
    c2_log_chain idHash [("m1", "t1"), ("m2", "t2")] (by decide) (by decide) (by decide)⟩

/-- Claim C10: when the file passed to `add` cannot be read, the error
propagates before any write: the returned state is the input state, so the
object store gains nothing and the staging index is unchanged. -/
theorem c10_add_read_failure (hashObject : String → String) (s : DuckState) (p : String) :
    (add hashObject s p none).1 = s ∧ (add hashObject s p none).2 = .error .enoent :=
  ⟨rfl, rfl⟩

end Duck
